import Mathlib

/-!
# DarkPool staking ledger — shallow embedding

This file embeds the staking state machine of `contracts/DarkPoolStaking.sol`
(and the `mint` entry point of `contracts/RewardCoin.sol`) in Lean 4 and
proves the specification claims about it.

Modelling conventions:

* Addresses and encrypted-amount handles (`euint64` values) are `Nat`;
  `0` plays the role of `address(0)` respectively the zero handle.
* `uint64` quantities are `Nat` with explicit `% 2 ^ 64` where the source
  performs a truncating cast; Solidity 0.8 checked arithmetic that can
  overflow (the `uint64` addition in `stake`) is modelled by an explicit
  `ArithmeticPanic` error branch.
* The FHE runtime is external to the repository and is passed in as
  oracles: `encrypt` (for `FHE.asEuint64`), `verifyDecryptionProof` (for
  `FHE.checkSignatures`, which reverts when verification fails, modelled
  as the `ProofInvalid` error), and the success/failure of the low-level
  native-value `call` as a boolean oracle `transferSucceeds`.
  `FHE.allowThis` / `FHE.allow` / `FHE.makePubliclyDecryptable` are ACL
  bookkeeping inside the external runtime and do not touch ledger state.
* A Solidity `revert` rolls back every storage write of the transaction,
  so each entry point is embedded as an `Except`-valued function: an
  `.error` result carries no state, and the post-transaction state of a
  reverted call is the pre-state (see the `after*` wrappers).
-/

namespace DarkPool

abbrev Addr := Nat
abbrev Handle := Nat

/-- The Solidity constant `type(uint64).max`. -/
def UINT64_MAX : Nat := 2 ^ 64 - 1

/-- The `struct StakePosition` of `DarkPoolStaking.sol`; `amount` is the
`euint64` handle of the encrypted deposit. -/
structure StakePosition where
  amount : Handle
  unlockTimestamp : Nat
  active : Bool
  withdrawRequested : Bool
deriving Repr, DecidableEq

/-- The all-zero struct value a Solidity mapping yields for an absent key. -/
def StakePosition.zero : StakePosition :=
  { amount := 0, unlockTimestamp := 0, active := false, withdrawRequested := false }

/-- The storage of `DarkPoolStaking`: `_stakes` and `_withdrawRequests`.
Solidity mappings are total with zero default, so both are total functions. -/
structure PoolState where
  stakes : Addr → StakePosition
  withdrawRequests : Handle → Addr

/-- Storage at construction: both mappings empty. -/
def initialState : PoolState :=
  { stakes := fun _ => StakePosition.zero, withdrawRequests := fun _ => 0 }

/-- Storage write `_stakes[a] = p` (also `delete _stakes[a]` with
`p = StakePosition.zero`). -/
def PoolState.setStake (s : PoolState) (a : Addr) (p : StakePosition) : PoolState :=
  { s with stakes := fun a' => if a' = a then p else s.stakes a' }

/-- Storage write `_withdrawRequests[h] = a` (also `delete` with `a = 0`). -/
def PoolState.setRequest (s : PoolState) (h : Handle) (a : Addr) : PoolState :=
  { s with withdrawRequests := fun h' => if h' = h then a else s.withdrawRequests h' }

@[simp] theorem setStake_stakes (s : PoolState) (a : Addr) (p : StakePosition)
    (a' : Addr) : (s.setStake a p).stakes a' = if a' = a then p else s.stakes a' :=
  rfl

@[simp] theorem setStake_withdrawRequests (s : PoolState) (a : Addr)
    (p : StakePosition) : (s.setStake a p).withdrawRequests = s.withdrawRequests :=
  rfl

@[simp] theorem setRequest_withdrawRequests (s : PoolState) (h : Handle) (a : Addr)
    (h' : Handle) :
    (s.setRequest h a).withdrawRequests h' = if h' = h then a else s.withdrawRequests h' :=
  rfl

@[simp] theorem setRequest_stakes (s : PoolState) (h : Handle) (a : Addr) :
    (s.setRequest h a).stakes = s.stakes :=
  rfl

/-- The custom errors of `DarkPoolStaking.sol`, plus `Unauthorized` from
`RewardCoin.sol`, `ProofInvalid` for a revert raised inside
`FHE.checkSignatures`, and `ArithmeticPanic` for a Solidity 0.8 checked
arithmetic overflow panic. -/
inductive PoolError where
  | InvalidAmount
  | InvalidDuration
  | InvalidAddress
  | ActiveStakeExists
  | NoActiveStake
  | WithdrawNotReady
  | WithdrawAlreadyRequested
  | InvalidWithdrawRequest
  | RewardOverflow
  | TransferFailed
  | Unauthorized
  | ProofInvalid
  | ArithmeticPanic
deriving Repr, DecidableEq

/-- The constant `uint256 public constant REWARD_PER_ETH = 1000 * 1e6;`. -/
def REWARD_PER_ETH : Nat := 1000 * 1000000

/-- The reward computation of `finalizeWithdraw` (line 115):
`(uint256(clearAmount) * REWARD_PER_ETH) / 1e18`, truncating division. -/
def reward (clearAmount : Nat) : Nat :=
  clearAmount * REWARD_PER_ETH / 10 ^ 18

/-- Entry point `function stake(uint64 lockDurationSeconds) external payable`.
`sender` is `msg.sender`, `msgValue` is `msg.value`, `timestamp` is
`block.timestamp`; `encrypt` is the FHE oracle behind `FHE.asEuint64`.
The unlock time is `uint64(block.timestamp) + lockDurationSeconds`: a
truncating cast followed by checked `uint64` addition, which panics on
overflow. -/
def stake (s : PoolState) (sender : Addr) (msgValue : Nat) (timestamp : Nat)
    (lockDurationSeconds : Nat) (encrypt : Nat → Handle) :
    Except PoolError PoolState :=
  if msgValue = 0 ∨ msgValue > UINT64_MAX then
    .error .InvalidAmount
  else if lockDurationSeconds = 0 then
    .error .InvalidDuration
  else if (s.stakes sender).active then
    .error .ActiveStakeExists
  else if timestamp % 2 ^ 64 + lockDurationSeconds > UINT64_MAX then
    .error .ArithmeticPanic
  else
    let unlockTimestamp := timestamp % 2 ^ 64 + lockDurationSeconds
    let encryptedAmount := encrypt msgValue
    .ok (s.setStake sender
      { amount := encryptedAmount, unlockTimestamp := unlockTimestamp,
        active := true, withdrawRequested := false })

/-- Entry point `function requestWithdraw() external`.  The source sets
`position.withdrawRequested = true` before the collision check on
`_withdrawRequests[position.amount]`, but a revert rolls that write back,
so the embedding performs all checks before building the success state. -/
def requestWithdraw (s : PoolState) (sender : Addr) (timestamp : Nat) :
    Except PoolError PoolState :=
  let position := s.stakes sender
  if !position.active then
    .error .NoActiveStake
  else if position.withdrawRequested then
    .error .WithdrawAlreadyRequested
  else if timestamp < position.unlockTimestamp then
    .error .WithdrawNotReady
  else if s.withdrawRequests position.amount ≠ 0 then
    .error .InvalidWithdrawRequest
  else
    .ok ((s.setStake sender { position with withdrawRequested := true
          }).setRequest position.amount sender)

/-- The observable outcome of a successful `finalizeWithdraw`: the new
storage, the native-value transfer `payable(staker).call{value: clearAmount}`,
and the `rewardCoin.mint(staker, uint64(rewardAmount))` call. -/
structure FinalizeResult where
  state : PoolState
  payoutTo : Addr
  payoutAmount : Nat
  mintTo : Addr
  mintAmount : Nat

/-- Entry point `function finalizeWithdraw(euint64 amount, uint64 clearAmount, bytes
calldata decryptionProof) external`.  `sender` is `msg.sender`, which the
body never reads; `verifyDecryptionProof` is the oracle behind
`FHE.checkSignatures` (reverting on failure); `transferSucceeds` tells
whether the low-level native-value call to a given recipient succeeds. -/
def finalizeWithdraw (s : PoolState) (sender : Addr) (amount : Handle)
    (clearAmount : Nat) (decryptionProof : Nat)
    (verifyDecryptionProof : Handle → Nat → Nat → Bool)
    (transferSucceeds : Addr → Nat → Bool) :
    Except PoolError FinalizeResult :=
  let staker := s.withdrawRequests amount
  if staker = 0 then
    .error .InvalidWithdrawRequest
  else
    let position := s.stakes staker
    if !position.active || !position.withdrawRequested then
      .error .InvalidWithdrawRequest
    else if !verifyDecryptionProof amount clearAmount decryptionProof then
      .error .ProofInvalid
    else
      let rewardAmount := reward clearAmount
      if rewardAmount > UINT64_MAX then
        .error .RewardOverflow
      else
        let s' : PoolState := (s.setRequest amount 0).setStake staker StakePosition.zero
        if !transferSucceeds staker clearAmount then
          .error .TransferFailed
        else
          .ok { state := s', payoutTo := staker, payoutAmount := clearAmount,
                mintTo := staker, mintAmount := rewardAmount % 2 ^ 64 }

/-- Query `function getStake(address staker) external view`. -/
def getStake (s : PoolState) (staker : Addr) : Handle × Nat × Bool × Bool :=
  let position := s.stakes staker
  (position.amount, position.unlockTimestamp, position.active, position.withdrawRequested)

/-- Query `function canWithdraw(address staker) external view`. -/
def canWithdraw (s : PoolState) (staker : Addr) (timestamp : Nat) : Bool :=
  let position := s.stakes staker
  position.active && decide (position.unlockTimestamp ≤ timestamp)
    && !position.withdrawRequested

/-- Post-transaction ledger state of a `stake` call: a revert restores the
pre-state. -/
def afterStake (s : PoolState) (sender : Addr) (msgValue timestamp
    lockDurationSeconds : Nat) (encrypt : Nat → Handle) : PoolState :=
  match stake s sender msgValue timestamp lockDurationSeconds encrypt with
  | .ok s' => s'
  | .error _ => s

/-- Post-transaction ledger state of a `requestWithdraw` call. -/
def afterRequestWithdraw (s : PoolState) (sender : Addr) (timestamp : Nat) :
    PoolState :=
  match requestWithdraw s sender timestamp with
  | .ok s' => s'
  | .error _ => s

/-- Post-transaction ledger state of a `finalizeWithdraw` call. -/
def afterFinalizeWithdraw (s : PoolState) (sender : Addr) (amount : Handle)
    (clearAmount decryptionProof : Nat)
    (verifyDecryptionProof : Handle → Nat → Nat → Bool)
    (transferSucceeds : Addr → Nat → Bool) : PoolState :=
  match finalizeWithdraw s sender amount clearAmount decryptionProof
      verifyDecryptionProof transferSucceeds with
  | .ok r => r.state
  | .error _ => s

/-- Storage of `RewardCoin.sol` that the claims touch: the configured
minter and the confidential balances.  The ERC7984 `_mint` of the external
confidential-token library credits the encrypted amount with 64-bit
wrap-around FHE addition. -/
structure RewardCoinState where
  minter : Addr
  balances : Addr → Nat

/-- Entry point `function mint(address to, uint64 amount) external onlyMinter` of
`RewardCoin.sol`. -/
def RewardCoin.mint (rc : RewardCoinState) (sender : Addr) (recipient : Addr)
    (amount : Nat) : Except PoolError RewardCoinState :=
  if sender ≠ rc.minter then
    .error .Unauthorized
  else if recipient = 0 then
    .error .InvalidAddress
  else
    .ok { rc with balances := fun a =>
            if a = recipient then (rc.balances a + amount) % 2 ^ 64
            else rc.balances a }

/-- States reachable from construction by any sequence of successful
entry-point calls, with arbitrary call parameters and arbitrary behaviour
of the external FHE/transfer oracles at each call.  `msg.sender` of a
transaction is never `address(0)`. -/
inductive Reachable : PoolState → Prop where
  | init : Reachable initialState
  | stakeStep (s s' : PoolState) (sender : Addr) (msgValue timestamp
      lockDurationSeconds : Nat) (encrypt : Nat → Handle) :
      Reachable s → sender ≠ 0 →
      stake s sender msgValue timestamp lockDurationSeconds encrypt = .ok s' →
      Reachable s'
  | requestStep (s s' : PoolState) (sender : Addr) (timestamp : Nat) :
      Reachable s → sender ≠ 0 →
      requestWithdraw s sender timestamp = .ok s' →
      Reachable s'
  | finalizeStep (s : PoolState) (r : FinalizeResult) (sender : Addr)
      (amount : Handle) (clearAmount decryptionProof : Nat)
      (verifyDecryptionProof : Handle → Nat → Nat → Bool)
      (transferSucceeds : Addr → Nat → Bool) :
      Reachable s →
      finalizeWithdraw s sender amount clearAmount decryptionProof
        verifyDecryptionProof transferSucceeds = .ok r →
      Reachable r.state

/-! ## Inversion lemmas for successful calls -/

theorem stake_ok_inv {s s' : PoolState} {sender : Addr}
    {msgValue timestamp lockDurationSeconds : Nat} {encrypt : Nat → Handle}
    (h : stake s sender msgValue timestamp lockDurationSeconds encrypt = .ok s') :
    (s.stakes sender).active = false ∧
    s' = s.setStake sender
      { amount := encrypt msgValue,
        unlockTimestamp := timestamp % 2 ^ 64 + lockDurationSeconds,
        active := true, withdrawRequested := false } := by
  simp only [stake] at h
  split at h
  · exact Except.noConfusion h
  split at h
  · exact Except.noConfusion h
  split at h
  · exact Except.noConfusion h
  split at h
  · exact Except.noConfusion h
  rename_i h1 h2 h3 h4
  exact ⟨by simpa using h3, (Except.ok.inj h).symm⟩

theorem requestWithdraw_ok_inv {s s' : PoolState} {sender : Addr} {timestamp : Nat}
    (h : requestWithdraw s sender timestamp = .ok s') :
    (s.stakes sender).active = true ∧
    (s.stakes sender).withdrawRequested = false ∧
    (s.stakes sender).unlockTimestamp ≤ timestamp ∧
    s.withdrawRequests ((s.stakes sender).amount) = 0 ∧
    s' = (s.setStake sender { s.stakes sender with withdrawRequested := true
          }).setRequest (s.stakes sender).amount sender := by
  simp only [requestWithdraw] at h
  split at h
  · exact Except.noConfusion h
  split at h
  · exact Except.noConfusion h
  split at h
  · exact Except.noConfusion h
  split at h
  · exact Except.noConfusion h
  rename_i h1 h2 h3 h4
  refine ⟨by simpa using h1, by simpa using h2, by omega, by simpa using h4,
    (Except.ok.inj h).symm⟩

theorem finalizeWithdraw_ok_inv {s : PoolState} {r : FinalizeResult} {sender : Addr}
    {amount : Handle} {clearAmount decryptionProof : Nat}
    {vf : Handle → Nat → Nat → Bool} {tf : Addr → Nat → Bool}
    (h : finalizeWithdraw s sender amount clearAmount decryptionProof vf tf = .ok r) :
    s.withdrawRequests amount ≠ 0 ∧
    (s.stakes (s.withdrawRequests amount)).active = true ∧
    (s.stakes (s.withdrawRequests amount)).withdrawRequested = true ∧
    vf amount clearAmount decryptionProof = true ∧
    reward clearAmount ≤ UINT64_MAX ∧
    tf (s.withdrawRequests amount) clearAmount = true ∧
    r = { state := (s.setRequest amount 0).setStake (s.withdrawRequests amount)
                     StakePosition.zero,
          payoutTo := s.withdrawRequests amount, payoutAmount := clearAmount,
          mintTo := s.withdrawRequests amount,
          mintAmount := reward clearAmount % 2 ^ 64 } := by
  simp only [finalizeWithdraw] at h
  split at h
  · exact Except.noConfusion h
  split at h
  · exact Except.noConfusion h
  split at h
  · exact Except.noConfusion h
  split at h
  · exact Except.noConfusion h
  split at h
  · exact Except.noConfusion h
  rename_i h1 h2 h3 h4 h5
  have h2' : (s.stakes (s.withdrawRequests amount)).active = true ∧
      (s.stakes (s.withdrawRequests amount)).withdrawRequested = true := by
    constructor <;> [skip; skip] <;> revert h2 <;>
      cases ha : (s.stakes (s.withdrawRequests amount)).active <;>
      cases hb : (s.stakes (s.withdrawRequests amount)).withdrawRequested <;> simp
  refine ⟨h1, h2'.1, h2'.2, by simpa using h3, by omega, by simpa using h5,
    (Except.ok.inj h).symm⟩

/-! ## The pending-withdrawal index invariant -/

/-- The consistency invariant tying `_withdrawRequests` to `_stakes`:
every pending entry points at an active, withdraw-requested position whose
stored handle is the entry's key; every withdraw-requested position of a
nonzero account has its entry; and the zero address never holds a
position. -/
def GoodState (s : PoolState) : Prop :=
  (∀ h : Handle, s.withdrawRequests h ≠ 0 →
      (s.stakes (s.withdrawRequests h)).active = true ∧
      (s.stakes (s.withdrawRequests h)).withdrawRequested = true ∧
      (s.stakes (s.withdrawRequests h)).amount = h) ∧
  (∀ a : Addr, a ≠ 0 → (s.stakes a).withdrawRequested = true →
      s.withdrawRequests ((s.stakes a).amount) = a) ∧
  s.stakes 0 = StakePosition.zero

theorem goodState_initial : GoodState initialState := by
  refine ⟨fun h hne => absurd rfl hne, fun a _ hreq => ?_, rfl⟩
  simp [initialState, StakePosition.zero] at hreq

theorem goodState_stake {s s' : PoolState} {sender : Addr}
    {msgValue timestamp lockDurationSeconds : Nat} {encrypt : Nat → Handle}
    (hg : GoodState s) (hs : sender ≠ 0)
    (h : stake s sender msgValue timestamp lockDurationSeconds encrypt = .ok s') :
    GoodState s' := by
  obtain ⟨hact, rfl⟩ := stake_ok_inv h
  obtain ⟨g1, g2, g3⟩ := hg
  refine ⟨?_, ?_, ?_⟩
  · intro hh hne
    simp only [setStake_withdrawRequests] at hne ⊢
    have hold := g1 hh hne
    have hna : s.withdrawRequests hh ≠ sender := by
      intro he
      rw [he] at hold
      rw [hold.1] at hact
      exact Bool.noConfusion hact
    simpa [setStake_stakes, hna] using hold
  · intro a ha hreq
    simp only [setStake_withdrawRequests, setStake_stakes] at hreq ⊢
    by_cases hcase : a = sender
    · subst hcase
      simp at hreq
    · rw [if_neg hcase] at hreq ⊢
      exact g2 a ha hreq
  · have : (0 : Addr) ≠ sender := fun he => hs he.symm
    simp [setStake_stakes, this, g3]

theorem goodState_requestWithdraw {s s' : PoolState} {sender : Addr} {timestamp : Nat}
    (hg : GoodState s) (hs : sender ≠ 0)
    (h : requestWithdraw s sender timestamp = .ok s') : GoodState s' := by
  obtain ⟨hact, hreq, _, hcol, rfl⟩ := requestWithdraw_ok_inv h
  obtain ⟨g1, g2, g3⟩ := hg
  refine ⟨?_, ?_, ?_⟩
  · intro hh hne
    simp only [setRequest_withdrawRequests, setRequest_stakes, setStake_stakes,
      setStake_withdrawRequests] at hne ⊢
    by_cases hcase : hh = (s.stakes sender).amount
    · rw [if_pos hcase] at hne ⊢
      simp [hact, hcase]
    · rw [if_neg hcase] at hne ⊢
      have hold := g1 hh hne
      have hna : s.withdrawRequests hh ≠ sender := by
        intro he
        rw [he] at hold
        rw [hold.2.1] at hreq
        exact Bool.noConfusion hreq
      simpa [hna] using hold
  · intro a ha hreqa
    simp only [setRequest_withdrawRequests, setRequest_stakes, setStake_stakes,
      setStake_withdrawRequests] at hreqa ⊢
    by_cases hcase : a = sender
    · subst hcase
      simp
    · rw [if_neg hcase] at hreqa ⊢
      have hent := g2 a ha hreqa
      have hne : (s.stakes a).amount ≠ (s.stakes sender).amount := by
        intro he
        rw [he] at hent
        rw [hent] at hcol
        exact ha hcol
      rw [if_neg hne]
      exact hent
  · have : (0 : Addr) ≠ sender := fun he => hs he.symm
    simp [setRequest_stakes, setStake_stakes, this, g3]

theorem goodState_finalizeWithdraw {s : PoolState} {r : FinalizeResult}
    {sender : Addr} {amount : Handle} {clearAmount decryptionProof : Nat}
    {vf : Handle → Nat → Nat → Bool} {tf : Addr → Nat → Bool}
    (hg : GoodState s)
    (h : finalizeWithdraw s sender amount clearAmount decryptionProof vf tf = .ok r) :
    GoodState r.state := by
  obtain ⟨hstk, hact, hreq, _, _, _, rfl⟩ := finalizeWithdraw_ok_inv h
  obtain ⟨g1, g2, g3⟩ := hg
  refine ⟨?_, ?_, ?_⟩
  · intro hh hne
    simp only [setStake_stakes, setStake_withdrawRequests,
      setRequest_withdrawRequests, setRequest_stakes] at hne ⊢
    by_cases hcase : hh = amount
    · rw [if_pos hcase] at hne
      exact absurd rfl hne
    · rw [if_neg hcase] at hne ⊢
      have hold := g1 hh hne
      have hna : s.withdrawRequests hh ≠ s.withdrawRequests amount := by
        intro he
        have h1 := hold.2.2
        have h2 := (g1 amount hstk).2.2
        rw [he, h2] at h1
        exact hcase h1.symm
      simpa [hna] using hold
  · intro a ha hreqa
    simp only [setStake_stakes, setStake_withdrawRequests,
      setRequest_withdrawRequests, setRequest_stakes] at hreqa ⊢
    by_cases hcase : a = s.withdrawRequests amount
    · rw [if_pos hcase] at hreqa
      simp [StakePosition.zero] at hreqa
    · rw [if_neg hcase] at hreqa ⊢
      have hent := g2 a ha hreqa
      have hne : (s.stakes a).amount ≠ amount := by
        intro he
        rw [he] at hent
        exact hcase hent.symm
      rw [if_neg hne]
      exact hent
  · have : (0 : Addr) ≠ s.withdrawRequests amount := fun he => hstk he.symm
    simp [setStake_stakes, setRequest_stakes, this, g3]

theorem reachable_goodState {s : PoolState} (h : Reachable s) : GoodState s := by
  induction h with
  | init => exact goodState_initial
  | stakeStep s s' sender v t d enc _ hs hok ih => exact goodState_stake ih hs hok
  | requestStep s s' sender t _ hs hok ih => exact goodState_requestWithdraw ih hs hok
  | finalizeStep s r sender a ca p vf tf _ hok ih => exact goodState_finalizeWithdraw ih hok

/-! ## Shared helper lemmas -/

/-- The reward for any 64-bit clear amount itself fits in 64 bits. -/
theorem reward_le_uint64Max {clearAmount : Nat} (hca : clearAmount ≤ UINT64_MAX) :
    reward clearAmount ≤ UINT64_MAX := by
  have h1 : reward clearAmount ≤ clearAmount := by
    unfold reward REWARD_PER_ETH
    calc clearAmount * (1000 * 1000000) / 10 ^ 18
        ≤ clearAmount * 10 ^ 18 / 10 ^ 18 := by gcongr <;> norm_num
      _ = clearAmount := by
        rw [Nat.mul_div_assoc _ (dvd_refl _), Nat.div_self (by norm_num), Nat.mul_one]
  exact le_trans h1 hca

/-- A `finalizeWithdraw` on a handle absent from `_withdrawRequests`
takes the first error branch. -/
theorem finalizeWithdraw_absent (s : PoolState) (sender : Addr) (amount : Handle)
    (clearAmount decryptionProof : Nat) (vf : Handle → Nat → Nat → Bool)
    (tf : Addr → Nat → Bool) (hunk : s.withdrawRequests amount = 0) :
    finalizeWithdraw s sender amount clearAmount decryptionProof vf tf =
      .error .InvalidWithdrawRequest := by
  simp [finalizeWithdraw, hunk]

/-- A `finalizeWithdraw` whose preconditions all hold returns the settled
result record. -/
theorem finalizeWithdraw_ok (s : PoolState) (sender : Addr) (amount : Handle)
    (clearAmount decryptionProof : Nat) (vf : Handle → Nat → Nat → Bool)
    (tf : Addr → Nat → Bool)
    (hpend : s.withdrawRequests amount ≠ 0)
    (hact : (s.stakes (s.withdrawRequests amount)).active = true)
    (hreq : (s.stakes (s.withdrawRequests amount)).withdrawRequested = true)
    (hvf : vf amount clearAmount decryptionProof = true)
    (hca : clearAmount ≤ UINT64_MAX)
    (htf : tf (s.withdrawRequests amount) clearAmount = true) :
    finalizeWithdraw s sender amount clearAmount decryptionProof vf tf =
      .ok { state := (s.setRequest amount 0).setStake (s.withdrawRequests amount)
                       StakePosition.zero,
            payoutTo := s.withdrawRequests amount, payoutAmount := clearAmount,
            mintTo := s.withdrawRequests amount,
            mintAmount := reward clearAmount % 2 ^ 64 } := by
  have hb := reward_le_uint64Max hca
  simp [finalizeWithdraw, hpend, hact, hreq, hvf, htf, Nat.not_lt.2 hb]

/-! ## A concrete execution trace used by witnesses and counterexamples -/

/-- Account 1 stakes 100 wei at `t = 0` for 10 seconds; the FHE oracle
returns handle 7 for the encrypted deposit. -/
def exS1 : PoolState := afterStake initialState 1 100 0 10 (fun _ => 7)

/-- Account 1 requests withdrawal at `t = 10`: handle 7 becomes pending. -/
def exS2 : PoolState := afterRequestWithdraw exS1 1 10

/-- Account 2 stakes 50 wei at `t = 10` for 5 seconds while handle 7 is
still pending, and the FHE oracle returns the colliding handle 7 again. -/
def exS3 : PoolState := afterStake exS2 2 50 10 5 (fun _ => 7)

theorem reachable_exS1 : Reachable exS1 :=
  Reachable.stakeStep initialState exS1 1 100 0 10 (fun _ => 7)
    Reachable.init (by decide) rfl

theorem reachable_exS2 : Reachable exS2 :=
  Reachable.requestStep exS1 exS2 1 10 reachable_exS1 (by decide) rfl

theorem reachable_exS3 : Reachable exS3 :=
  Reachable.stakeStep exS2 exS3 2 50 10 5 (fun _ => 7)
    reachable_exS2 (by decide) rfl

/-! ## Claims -/

/-- C6: the reward computation `reward(c) = (c * 1000e6) / 1e18` with
truncating unsigned division is monotone — `a < b` implies
`reward a ≤ reward b` — and sends 0 to 0.  (As a Lean function it is pure
and deterministic by construction.) -/
theorem reward_monotone_and_zero (a b : Nat) (hab : a < b) :
    reward a ≤ reward b ∧ reward 0 = 0 :=
  ⟨Nat.div_le_div_right (Nat.mul_le_mul_right _ hab.le), rfl⟩

theorem reward_monotone_and_zero_witness :
    0 < 10 ^ 18 ∧ reward 0 ≤ reward (10 ^ 18) ∧ reward 0 = 0 :=
  ⟨by norm_num, (reward_monotone_and_zero 0 (10 ^ 18) (by norm_num)).1,
    (reward_monotone_and_zero 0 (10 ^ 18) (by norm_num)).2⟩

/-- C8: `finalizeWithdraw` on a handle that is not a key of
`_withdrawRequests` always fails with `InvalidWithdrawRequest`, for every
clear amount, proof, oracle behaviour and caller, and the
post-transaction ledger state is unchanged. -/
theorem finalizeWithdraw_unknownHandle (s : PoolState) (sender : Addr)
    (amount : Handle) (clearAmount decryptionProof : Nat)
    (vf : Handle → Nat → Nat → Bool) (tf : Addr → Nat → Bool)
    (hunk : s.withdrawRequests amount = 0) :
    finalizeWithdraw s sender amount clearAmount decryptionProof vf tf =
      .error .InvalidWithdrawRequest ∧
    afterFinalizeWithdraw s sender amount clearAmount decryptionProof vf tf = s := by
  have h1 := finalizeWithdraw_absent s sender amount clearAmount decryptionProof
    vf tf hunk
  exact ⟨h1, by simp only [afterFinalizeWithdraw, h1]⟩

theorem finalizeWithdraw_unknownHandle_witness :
    exS1.withdrawRequests 7 = 0 ∧
    finalizeWithdraw exS1 3 7 100 0 (fun _ _ _ => true) (fun _ _ => true) =
      .error .InvalidWithdrawRequest ∧
    afterFinalizeWithdraw exS1 3 7 100 0 (fun _ _ _ => true) (fun _ _ => true) = exS1 :=
  ⟨rfl, (finalizeWithdraw_unknownHandle exS1 3 7 100 0 _ _ rfl).1,
    (finalizeWithdraw_unknownHandle exS1 3 7 100 0 _ _ rfl).2⟩

/-- C9: for every clear amount representable in 64 bits the computed
reward also fits in 64 bits, so no `finalizeWithdraw` call can fail with
`RewardOverflow`: that error branch is unreachable. -/
theorem rewardOverflow_unreachable (s : PoolState) (sender : Addr)
    (amount : Handle) (clearAmount decryptionProof : Nat)
    (vf : Handle → Nat → Nat → Bool) (tf : Addr → Nat → Bool)
    (hca : clearAmount ≤ UINT64_MAX) :
    reward clearAmount ≤ UINT64_MAX ∧
    finalizeWithdraw s sender amount clearAmount decryptionProof vf tf ≠
      .error .RewardOverflow := by
  have hb := reward_le_uint64Max hca
  refine ⟨hb, fun hcontra => ?_⟩
  simp only [finalizeWithdraw] at hcontra
  split at hcontra
  · simp at hcontra
  split at hcontra
  · simp at hcontra
  split at hcontra
  · simp at hcontra
  split at hcontra
  · rename_i hbig
    unfold UINT64_MAX at hb hbig
    omega
  split at hcontra
  · simp at hcontra
  · simp at hcontra

theorem rewardOverflow_unreachable_witness :
    UINT64_MAX ≤ UINT64_MAX ∧ reward UINT64_MAX ≤ UINT64_MAX ∧
    finalizeWithdraw exS2 3 7 UINT64_MAX 0 (fun _ _ _ => true) (fun _ _ => true) ≠
      .error .RewardOverflow :=
  ⟨le_refl _,
    (rewardOverflow_unreachable exS2 3 7 UINT64_MAX 0 (fun _ _ _ => true)
      (fun _ _ => true) (le_refl _)).1,
    (rewardOverflow_unreachable exS2 3 7 UINT64_MAX 0 (fun _ _ _ => true)
      (fun _ _ => true) (le_refl _)).2⟩

/-- Property that `withdrawRequested` implies `active` for every position of a state. -/
def RequestedImpliesActive (s : PoolState) : Prop :=
  ∀ a : Addr, (s.stakes a).withdrawRequested = true → (s.stakes a).active = true

theorem requestedImpliesActive_stake {s s' : PoolState} {sender : Addr}
    {msgValue timestamp lockDurationSeconds : Nat} {encrypt : Nat → Handle}
    (hi : RequestedImpliesActive s)
    (h : stake s sender msgValue timestamp lockDurationSeconds encrypt = .ok s') :
    RequestedImpliesActive s' := by
  obtain ⟨_, rfl⟩ := stake_ok_inv h
  intro a hreq
  simp only [setStake_stakes] at hreq ⊢
  by_cases hcase : a = sender
  · simp [hcase]
  · rw [if_neg hcase] at hreq ⊢
    exact hi a hreq

theorem requestedImpliesActive_requestWithdraw {s s' : PoolState} {sender : Addr}
    {timestamp : Nat} (hi : RequestedImpliesActive s)
    (h : requestWithdraw s sender timestamp = .ok s') :
    RequestedImpliesActive s' := by
  obtain ⟨hact, _, _, _, rfl⟩ := requestWithdraw_ok_inv h
  intro a hreq
  simp only [setRequest_stakes, setStake_stakes] at hreq ⊢
  by_cases hcase : a = sender
  · simpa [hcase] using hact
  · rw [if_neg hcase] at hreq ⊢
    exact hi a hreq

theorem requestedImpliesActive_finalizeWithdraw {s : PoolState} {r : FinalizeResult}
    {sender : Addr} {amount : Handle} {clearAmount decryptionProof : Nat}
    {vf : Handle → Nat → Nat → Bool} {tf : Addr → Nat → Bool}
    (hi : RequestedImpliesActive s)
    (h : finalizeWithdraw s sender amount clearAmount decryptionProof vf tf = .ok r) :
    RequestedImpliesActive r.state := by
  obtain ⟨_, _, _, _, _, _, rfl⟩ := finalizeWithdraw_ok_inv h
  intro a hreq
  simp only [setStake_stakes, setRequest_stakes] at hreq ⊢
  by_cases hcase : a = s.withdrawRequests amount
  · rw [if_pos hcase] at hreq
    simp [StakePosition.zero] at hreq
  · rw [if_neg hcase] at hreq ⊢
    exact hi a hreq

/-- C5: in every reachable state `withdrawRequested == true` implies
`active == true` for every account, and this implication is preserved by
each successful `stake`, `requestWithdraw` and `finalizeWithdraw` call
from any state that satisfies it. -/
theorem withdrawRequested_implies_active (s : PoolState) :
    (Reachable s → RequestedImpliesActive s) ∧
    (RequestedImpliesActive s →
      (∀ s' sender msgValue timestamp lockDurationSeconds encrypt,
        stake s sender msgValue timestamp lockDurationSeconds encrypt = .ok s' →
        RequestedImpliesActive s') ∧
      (∀ s' sender timestamp,
        requestWithdraw s sender timestamp = .ok s' → RequestedImpliesActive s') ∧
      (∀ r sender amount clearAmount decryptionProof vf tf,
        finalizeWithdraw s sender amount clearAmount decryptionProof vf tf = .ok r →
        RequestedImpliesActive r.state)) := by
  constructor
  · intro hr
    induction hr with
    | init => intro a hreq; simp [initialState, StakePosition.zero] at hreq
    | stakeStep s s' sender v t d enc _ _ hok ih =>
        exact requestedImpliesActive_stake ih hok
    | requestStep s s' sender t _ _ hok ih =>
        exact requestedImpliesActive_requestWithdraw ih hok
    | finalizeStep s r sender a ca p vf tf _ hok ih =>
        exact requestedImpliesActive_finalizeWithdraw ih hok
  · intro hi
    exact ⟨fun s' sender v t d enc hok => requestedImpliesActive_stake hi hok,
      fun s' sender t hok => requestedImpliesActive_requestWithdraw hi hok,
      fun r sender a ca p vf tf hok => requestedImpliesActive_finalizeWithdraw hi hok⟩

theorem withdrawRequested_implies_active_witness :
    (exS2.stakes 1).withdrawRequested = true ∧ (exS2.stakes 1).active = true :=
  ⟨rfl, (withdrawRequested_implies_active exS2).1 reachable_exS2 1 rfl⟩

/-- C2: in every reachable state a pending-withdrawal entry pointing at a
(nonzero) account exists if and only if that account's position is active
with `withdrawRequested == true`; and a `requestWithdraw` whose position
handle is already a key of the index fails with `InvalidWithdrawRequest`,
leaving the ledger unchanged instead of overwriting the entry. -/
theorem pendingIndex_iff_requested (s : PoolState) (hr : Reachable s) :
    (∀ a : Addr, a ≠ 0 →
      ((∃ h : Handle, s.withdrawRequests h = a) ↔
        (s.stakes a).active = true ∧ (s.stakes a).withdrawRequested = true)) ∧
    (∀ sender timestamp, (s.stakes sender).active = true →
      (s.stakes sender).withdrawRequested = false →
      (s.stakes sender).unlockTimestamp ≤ timestamp →
      s.withdrawRequests ((s.stakes sender).amount) ≠ 0 →
      requestWithdraw s sender timestamp = .error .InvalidWithdrawRequest ∧
      afterRequestWithdraw s sender timestamp = s) := by
  obtain ⟨g1, g2, _⟩ := reachable_goodState hr
  constructor
  · intro a ha
    constructor
    · rintro ⟨h, hh⟩
      have := g1 h (by rw [hh]; exact ha)
      rw [hh] at this
      exact ⟨this.1, this.2.1⟩
    · rintro ⟨_, hreq⟩
      exact ⟨(s.stakes a).amount, g2 a ha hreq⟩
  · intro sender timestamp hact hnreq hunlock hcol
    have herr : requestWithdraw s sender timestamp = .error .InvalidWithdrawRequest := by
      simp [requestWithdraw, hact, hnreq, Nat.not_lt.2 hunlock, hcol]
    exact ⟨herr, by simp only [afterRequestWithdraw, herr]⟩

theorem pendingIndex_iff_requested_witness :
    ((∃ h : Handle, exS3.withdrawRequests h = 1) ↔
      (exS3.stakes 1).active = true ∧ (exS3.stakes 1).withdrawRequested = true) ∧
    requestWithdraw exS3 2 20 = .error .InvalidWithdrawRequest ∧
    afterRequestWithdraw exS3 2 20 = exS3 :=
  ⟨(pendingIndex_iff_requested exS3 reachable_exS3).1 1 (by decide),
    ((pendingIndex_iff_requested exS3 reachable_exS3).2 2 20 rfl rfl
      (by decide) (by decide)).1,
    ((pendingIndex_iff_requested exS3 reachable_exS3).2 2 20 rfl rfl
      (by decide) (by decide)).2⟩

/-- C4 counterexample: in the reachable state `exS3`, account 2 holds an
active, not-yet-requested position whose unlock time (15) has passed at
`t = 20`, yet `requestWithdraw` does not succeed — handle 7 collides with
account 1's pending withdrawal, so the call fails with
`InvalidWithdrawRequest`, contradicting the claim that it "succeeds
exactly once" at or after `unlockTime`. -/
theorem requestWithdraw_lifecycle_counterexample :
    Reachable exS3 ∧
    (exS3.stakes 2).active = true ∧
    (exS3.stakes 2).withdrawRequested = false ∧
    (exS3.stakes 2).unlockTimestamp ≤ 20 ∧
    requestWithdraw exS3 2 20 = .error .InvalidWithdrawRequest :=
  ⟨reachable_exS3, rfl, rfl, by decide, rfl⟩

/-- C4 (amended): for a caller holding an active, not-yet-requested
position, `requestWithdraw` strictly before `unlockTime` fails with
`WithdrawNotReady`; at or after `unlockTime`, provided the position's
handle is not already a key of the pending-withdrawal index, the call
succeeds, and any second `requestWithdraw` by the same caller before
settlement fails with `WithdrawAlreadyRequested`. -/
theorem requestWithdraw_lifecycle (s : PoolState) (c : Addr) (t : Nat)
    (hact : (s.stakes c).active = true)
    (hnreq : (s.stakes c).withdrawRequested = false) :
    (t < (s.stakes c).unlockTimestamp →
      requestWithdraw s c t = .error .WithdrawNotReady) ∧
    ((s.stakes c).unlockTimestamp ≤ t →
      s.withdrawRequests ((s.stakes c).amount) = 0 →
      ∃ s', requestWithdraw s c t = .ok s' ∧
        ∀ t', requestWithdraw s' c t' = .error .WithdrawAlreadyRequested) := by
  constructor
  · intro ht
    simp [requestWithdraw, hact, hnreq, ht]
  · intro ht hcol
    refine ⟨(s.setStake c { s.stakes c with withdrawRequested := true
      }).setRequest (s.stakes c).amount c, ?_, ?_⟩
    · simp [requestWithdraw, hact, hnreq, Nat.not_lt.2 ht, hcol]
    · intro t'
      simp [requestWithdraw, hact, hnreq]

theorem requestWithdraw_lifecycle_witness :
    (exS1.stakes 1).active = true ∧ (exS1.stakes 1).withdrawRequested = false ∧
    (5 < (exS1.stakes 1).unlockTimestamp →
      requestWithdraw exS1 1 5 = .error .WithdrawNotReady) ∧
    ((exS1.stakes 1).unlockTimestamp ≤ 10 →
      exS1.withdrawRequests ((exS1.stakes 1).amount) = 0 →
      ∃ s', requestWithdraw exS1 1 10 = .ok s' ∧
        ∀ t', requestWithdraw s' 1 t' = .error .WithdrawAlreadyRequested) :=
  ⟨rfl, rfl, (requestWithdraw_lifecycle exS1 1 5 rfl rfl).1,
    (requestWithdraw_lifecycle exS1 1 10 rfl rfl).2⟩

/-- C7: a successful `stake(lockDuration, depositValue)` from a caller
with no active position, with `0 < depositValue ≤ 2^64 - 1` and
`lockDuration > 0` (and the unlock time representable in 64 bits), makes
an immediate `getStake(caller)` return the encrypted handle,
`unlockTime = timestamp + lockDuration`, `active = true` and
`withdrawRequested = false`. -/
theorem stake_then_getStake (s : PoolState) (c : Addr) (msgValue timestamp
    lockDurationSeconds : Nat) (encrypt : Nat → Handle)
    (hv : msgValue ≠ 0) (hvmax : msgValue ≤ UINT64_MAX)
    (hd : lockDurationSeconds ≠ 0) (hact : (s.stakes c).active = false)
    (hfit : timestamp + lockDurationSeconds ≤ UINT64_MAX) :
    ∃ s', stake s c msgValue timestamp lockDurationSeconds encrypt = .ok s' ∧
      getStake s' c =
        (encrypt msgValue, timestamp + lockDurationSeconds, true, false) := by
  have htlt : timestamp < 2 ^ 64 := by unfold UINT64_MAX at hfit; omega
  have hmod : timestamp % 2 ^ 64 = timestamp := Nat.mod_eq_of_lt htlt
  refine ⟨s.setStake c
    { amount := encrypt msgValue,
      unlockTimestamp := timestamp % 2 ^ 64 + lockDurationSeconds,
      active := true, withdrawRequested := false }, ?_, ?_⟩
  · simp only [stake, hv, hd, hact, Nat.not_lt.2 hvmax]
    simp only [UINT64_MAX] at hfit ⊢
    rw [if_neg not_false, if_neg (by simp)]
    rw [if_neg (show
      ¬ timestamp % 2 ^ 64 + lockDurationSeconds > 2 ^ 64 - 1 by omega)]
    simp
  · simp only [getStake, setStake_stakes, if_pos]
    rw [hmod]

theorem stake_then_getStake_witness :
    (exS2.stakes 2).active = false ∧
    ∃ s', stake exS2 2 42 100 60 (fun _ => 9) = .ok s' ∧
      getStake s' 2 = (9, 160, true, false) :=
  ⟨rfl, stake_then_getStake exS2 2 42 100 60 (fun _ => 9) (by decide)
    (by norm_num [UINT64_MAX]) (by decide) rfl (by norm_num [UINT64_MAX])⟩

/-- C1: finalizing a pending withdrawal with a verifying proof deletes the
staker's position (a subsequent `getStake` reports the empty position),
pays out exactly `clearAmount` of native value to the staker, mints
exactly `floor(clearAmount * 1000e6 / 1e18)` reward units to the staker
through the `RewardCoin` ledger, and removes the handle from the pending
index so an immediate repeat call fails with `InvalidWithdrawRequest`. -/
theorem finalizeWithdraw_settles (s : PoolState) (sender : Addr) (amount : Handle)
    (clearAmount decryptionProof : Nat) (vf : Handle → Nat → Nat → Bool)
    (tf : Addr → Nat → Bool)
    (hpend : s.withdrawRequests amount ≠ 0)
    (hact : (s.stakes (s.withdrawRequests amount)).active = true)
    (hreq : (s.stakes (s.withdrawRequests amount)).withdrawRequested = true)
    (hvf : vf amount clearAmount decryptionProof = true)
    (hca : clearAmount ≤ UINT64_MAX)
    (htf : tf (s.withdrawRequests amount) clearAmount = true) :
    ∃ r, finalizeWithdraw s sender amount clearAmount decryptionProof vf tf = .ok r ∧
      getStake r.state (s.withdrawRequests amount) = (0, 0, false, false) ∧
      r.payoutTo = s.withdrawRequests amount ∧
      r.payoutAmount = clearAmount ∧
      r.mintTo = s.withdrawRequests amount ∧
      r.mintAmount = clearAmount * REWARD_PER_ETH / 10 ^ 18 ∧
      (∀ rc : RewardCoinState, ∃ rc',
        RewardCoin.mint rc rc.minter (s.withdrawRequests amount) r.mintAmount = .ok rc' ∧
        rc'.balances (s.withdrawRequests amount) =
          (rc.balances (s.withdrawRequests amount)
            + clearAmount * REWARD_PER_ETH / 10 ^ 18) % 2 ^ 64) ∧
      r.state.withdrawRequests amount = 0 ∧
      (∀ sender' clearAmount' decryptionProof' vf' tf',
        finalizeWithdraw r.state sender' amount clearAmount' decryptionProof' vf' tf' =
          .error .InvalidWithdrawRequest) := by
  have hok := finalizeWithdraw_ok s sender amount clearAmount decryptionProof
    vf tf hpend hact hreq hvf hca htf
  have hble := reward_le_uint64Max hca
  have hmod : reward clearAmount % 2 ^ 64 = reward clearAmount := by
    unfold UINT64_MAX at hble
    omega
  have habsent : ((s.setRequest amount 0).setStake (s.withdrawRequests amount)
      StakePosition.zero).withdrawRequests amount = 0 := by
    simp
  refine ⟨_, hok, ?_, rfl, rfl, rfl, ?_, ?_, ?_, ?_⟩
  · simp [getStake, StakePosition.zero]
  · show reward clearAmount % 2 ^ 64 = clearAmount * REWARD_PER_ETH / 10 ^ 18
    rw [hmod]
    rfl
  · intro rc
    refine ⟨{ rc with balances := fun a =>
        if a = s.withdrawRequests amount then
          (rc.balances a + reward clearAmount % 2 ^ 64) % 2 ^ 64
        else rc.balances a }, ?_, ?_⟩
    · simp [RewardCoin.mint, hpend]
    · show (if (s.withdrawRequests amount) = (s.withdrawRequests amount) then
          (rc.balances (s.withdrawRequests amount) + reward clearAmount % 2 ^ 64) % 2 ^ 64
        else rc.balances (s.withdrawRequests amount)) = _
      rw [if_pos rfl, hmod]
      rfl
  · exact habsent
  · intro sender' clearAmount' decryptionProof' vf' tf'
    exact finalizeWithdraw_absent _ sender' amount clearAmount' decryptionProof'
      vf' tf' habsent

theorem finalizeWithdraw_settles_witness :
    exS2.withdrawRequests 7 ≠ 0 ∧
    ∃ r, finalizeWithdraw exS2 3 7 100 0 (fun _ _ _ => true) (fun _ _ => true) = .ok r ∧
      getStake r.state (exS2.withdrawRequests 7) = (0, 0, false, false) ∧
      r.payoutTo = exS2.withdrawRequests 7 ∧
      r.payoutAmount = 100 ∧
      r.mintTo = exS2.withdrawRequests 7 ∧
      r.mintAmount = 100 * REWARD_PER_ETH / 10 ^ 18 ∧
      (∀ rc : RewardCoinState, ∃ rc',
        RewardCoin.mint rc rc.minter (exS2.withdrawRequests 7) r.mintAmount = .ok rc' ∧
        rc'.balances (exS2.withdrawRequests 7) =
          (rc.balances (exS2.withdrawRequests 7) + 100 * REWARD_PER_ETH / 10 ^ 18) % 2 ^ 64) ∧
      r.state.withdrawRequests 7 = 0 ∧
      (∀ sender' clearAmount' decryptionProof' vf' tf',
        finalizeWithdraw r.state sender' 7 clearAmount' decryptionProof' vf' tf' =
          .error .InvalidWithdrawRequest) :=
  ⟨by decide, finalizeWithdraw_settles exS2 3 7 100 0 (fun _ _ _ => true)
    (fun _ _ => true) (by decide) rfl rfl rfl (by decide) rfl⟩

/-- C3: every entry point is atomic on error — an aborted `stake`,
`requestWithdraw` or `finalizeWithdraw` leaves the post-transaction
ledger state exactly equal to the pre-state; in particular a
`finalizeWithdraw` whose native-value transfer is rejected aborts with
`TransferFailed`, leaves the position and pending entry intact, and the
same call with a working transfer then succeeds. -/
theorem entryPoints_atomic (s : PoolState) (senderS senderR senderF : Addr)
    (msgValue timestamp lockDurationSeconds rTimestamp : Nat)
    (encrypt : Nat → Handle) (amount : Handle) (clearAmount decryptionProof : Nat)
    (vf : Handle → Nat → Nat → Bool) (tf : Addr → Nat → Bool) :
    (∀ e, stake s senderS msgValue timestamp lockDurationSeconds encrypt = .error e →
      afterStake s senderS msgValue timestamp lockDurationSeconds encrypt = s) ∧
    (∀ e, requestWithdraw s senderR rTimestamp = .error e →
      afterRequestWithdraw s senderR rTimestamp = s) ∧
    (∀ e, finalizeWithdraw s senderF amount clearAmount decryptionProof vf tf = .error e →
      afterFinalizeWithdraw s senderF amount clearAmount decryptionProof vf tf = s) ∧
    (s.withdrawRequests amount ≠ 0 →
      (s.stakes (s.withdrawRequests amount)).active = true →
      (s.stakes (s.withdrawRequests amount)).withdrawRequested = true →
      vf amount clearAmount decryptionProof = true →
      clearAmount ≤ UINT64_MAX →
      finalizeWithdraw s senderF amount clearAmount decryptionProof vf
          (fun _ _ => false) = .error .TransferFailed ∧
      afterFinalizeWithdraw s senderF amount clearAmount decryptionProof vf
          (fun _ _ => false) = s ∧
      ∃ r, finalizeWithdraw s senderF amount clearAmount decryptionProof vf
          (fun _ _ => true) = .ok r) := by
  refine ⟨fun e he => ?_, fun e he => ?_, fun e he => ?_,
    fun hpend hact hreq hvf hca => ?_⟩
  · simp only [afterStake, he]
  · simp only [afterRequestWithdraw, he]
  · simp only [afterFinalizeWithdraw, he]
  · have hble := reward_le_uint64Max hca
    have herr : finalizeWithdraw s senderF amount clearAmount decryptionProof vf
        (fun _ _ => false) = .error .TransferFailed := by
      simp [finalizeWithdraw, hpend, hact, hreq, hvf, Nat.not_lt.2 hble]
    exact ⟨herr, by simp only [afterFinalizeWithdraw, herr],
      _, finalizeWithdraw_ok s senderF amount clearAmount decryptionProof vf
        (fun _ _ => true) hpend hact hreq hvf hca rfl⟩

theorem entryPoints_atomic_witness :
    stake exS2 1 0 0 5 (fun v => v) = .error .InvalidAmount ∧
    afterStake exS2 1 0 0 5 (fun v => v) = exS2 ∧
    finalizeWithdraw exS2 9 7 100 0 (fun _ _ _ => true) (fun _ _ => false) =
      .error .TransferFailed ∧
    afterFinalizeWithdraw exS2 9 7 100 0 (fun _ _ _ => true) (fun _ _ => false) = exS2 ∧
    ∃ r, finalizeWithdraw exS2 9 7 100 0 (fun _ _ _ => true) (fun _ _ => true) = .ok r :=
  ⟨rfl,
    (entryPoints_atomic exS2 1 1 9 0 0 5 0 (fun v => v) 7 100 0
      (fun _ _ _ => true) (fun _ _ => true)).1 .InvalidAmount rfl,
    ((entryPoints_atomic exS2 1 1 9 0 0 5 0 (fun v => v) 7 100 0
      (fun _ _ _ => true) (fun _ _ => true)).2.2.2 (by decide) rfl rfl rfl (by decide)).1,
    ((entryPoints_atomic exS2 1 1 9 0 0 5 0 (fun v => v) 7 100 0
      (fun _ _ _ => true) (fun _ _ => true)).2.2.2 (by decide) rfl rfl rfl (by decide)).2.1,
    ((entryPoints_atomic exS2 1 1 9 0 0 5 0 (fun v => v) 7 100 0
      (fun _ _ _ => true) (fun _ _ => true)).2.2.2 (by decide) rfl rfl rfl (by decide)).2.2⟩

/-- C10: `finalizeWithdraw` never reads `msg.sender` — calls that differ
only in the transaction sender produce identical results, and a
successful call always pays out and mints to the staker recorded in the
pending-withdrawal index, never to the caller. -/
theorem finalizeWithdraw_callerIndependent (s : PoolState) (amount : Handle)
    (clearAmount decryptionProof : Nat) (vf : Handle → Nat → Nat → Bool)
    (tf : Addr → Nat → Bool) (sender₁ sender₂ : Addr) (r : FinalizeResult)
    (hok : finalizeWithdraw s sender₁ amount clearAmount decryptionProof vf tf = .ok r) :
    (∀ sender₃ sender₄ : Addr,
      finalizeWithdraw s sender₃ amount clearAmount decryptionProof vf tf =
      finalizeWithdraw s sender₄ amount clearAmount decryptionProof vf tf) ∧
    finalizeWithdraw s sender₂ amount clearAmount decryptionProof vf tf = .ok r ∧
    r.payoutTo = s.withdrawRequests amount ∧
    r.mintTo = s.withdrawRequests amount := by
  have heq : finalizeWithdraw s sender₂ amount clearAmount decryptionProof vf tf =
      finalizeWithdraw s sender₁ amount clearAmount decryptionProof vf tf := rfl
  obtain ⟨_, _, _, _, _, _, hr⟩ := finalizeWithdraw_ok_inv hok
  exact ⟨fun _ _ => rfl, heq.trans hok, by rw [hr], by rw [hr]⟩

/-- The result record of the successful finalization of handle 7 from
`exS2` (caller 3, clear amount 100, verifying proof, working transfer). -/
def exFin : FinalizeResult :=
  match finalizeWithdraw exS2 3 7 100 0 (fun _ _ _ => true) (fun _ _ => true) with
  | .ok r => r
  | .error _ =>
      { state := exS2, payoutTo := 0, payoutAmount := 0, mintTo := 0, mintAmount := 0 }

theorem finalizeWithdraw_callerIndependent_witness :
    finalizeWithdraw exS2 3 7 100 0 (fun _ _ _ => true) (fun _ _ => true) = .ok exFin ∧
    finalizeWithdraw exS2 4 7 100 0 (fun _ _ _ => true) (fun _ _ => true) = .ok exFin ∧
    exFin.payoutTo = exS2.withdrawRequests 7 ∧
    exFin.mintTo = exS2.withdrawRequests 7 :=
  ⟨rfl,
    (finalizeWithdraw_callerIndependent exS2 7 100 0 (fun _ _ _ => true)
      (fun _ _ => true) 3 4 exFin rfl).2.1,
    (finalizeWithdraw_callerIndependent exS2 7 100 0 (fun _ _ _ => true)
      (fun _ _ => true) 3 4 exFin rfl).2.2.1,
    (finalizeWithdraw_callerIndependent exS2 7 100 0 (fun _ _ _ => true)
      (fun _ _ => true) 3 4 exFin rfl).2.2.2⟩

end DarkPool
